import Mathlib

/-!
# Verification of the markdown-lite export pipeline

Shallow embedding of the text-processing core of `export_service.py`
(checkbox substitution, inline emphasis segmentation, section splitting,
line classification, filename sanitization) over `List Char`, together
with theorems settling the specification claims.

A Python `str` is modelled as a `List Char`; `re`-based scanning is
translated to explicit left-to-right scanners that reproduce the
backtracking order of the concrete regular expressions appearing in the
source.
-/

/-- The set of characters matched by Python's `\s` for `str` patterns
(also the characters stripped by `str.strip()`): ASCII whitespace,
the file/group/record/unit separators, NEL, NBSP and the Unicode
space characters. -/
def pySpace (c : Char) : Bool :=
  let n := c.toNat
  (9 ≤ n && n ≤ 13) || (28 ≤ n && n ≤ 32) || n == 0x85 || n == 0xA0 ||
  n == 0x1680 || (0x2000 ≤ n && n ≤ 0x200A) || n == 0x2028 || n == 0x2029 ||
  n == 0x202F || n == 0x205F || n == 0x3000

/-- The set of characters matched by Python's `\d` for `str` patterns:
the Unicode decimal digits (category Nd, Unicode 14.0, the table of
CPython 3.11), listed by their code-point ranges. -/
def pyDigit (c : Char) : Bool :=
  let n := c.toNat
  (0x30 ≤ n && n ≤ 0x39) || (0x660 ≤ n && n ≤ 0x669) ||
  (0x6F0 ≤ n && n ≤ 0x6F9) || (0x7C0 ≤ n && n ≤ 0x7C9) ||
  (0x966 ≤ n && n ≤ 0x96F) || (0x9E6 ≤ n && n ≤ 0x9EF) ||
  (0xA66 ≤ n && n ≤ 0xA6F) || (0xAE6 ≤ n && n ≤ 0xAEF) ||
  (0xB66 ≤ n && n ≤ 0xB6F) || (0xBE6 ≤ n && n ≤ 0xBEF) ||
  (0xC66 ≤ n && n ≤ 0xC6F) || (0xCE6 ≤ n && n ≤ 0xCEF) ||
  (0xD66 ≤ n && n ≤ 0xD6F) || (0xDE6 ≤ n && n ≤ 0xDEF) ||
  (0xE50 ≤ n && n ≤ 0xE59) || (0xED0 ≤ n && n ≤ 0xED9) ||
  (0xF20 ≤ n && n ≤ 0xF29) || (0x1040 ≤ n && n ≤ 0x1049) ||
  (0x1090 ≤ n && n ≤ 0x1099) || (0x17E0 ≤ n && n ≤ 0x17E9) ||
  (0x1810 ≤ n && n ≤ 0x1819) || (0x1946 ≤ n && n ≤ 0x194F) ||
  (0x19D0 ≤ n && n ≤ 0x19D9) || (0x1A80 ≤ n && n ≤ 0x1A89) ||
  (0x1A90 ≤ n && n ≤ 0x1A99) || (0x1B50 ≤ n && n ≤ 0x1B59) ||
  (0x1BB0 ≤ n && n ≤ 0x1BB9) || (0x1C40 ≤ n && n ≤ 0x1C49) ||
  (0x1C50 ≤ n && n ≤ 0x1C59) || (0xA620 ≤ n && n ≤ 0xA629) ||
  (0xA8D0 ≤ n && n ≤ 0xA8D9) || (0xA900 ≤ n && n ≤ 0xA909) ||
  (0xA9D0 ≤ n && n ≤ 0xA9D9) || (0xA9F0 ≤ n && n ≤ 0xA9F9) ||
  (0xAA50 ≤ n && n ≤ 0xAA59) || (0xABF0 ≤ n && n ≤ 0xABF9) ||
  (0xFF10 ≤ n && n ≤ 0xFF19) || (0x104A0 ≤ n && n ≤ 0x104A9) ||
  (0x10D30 ≤ n && n ≤ 0x10D39) || (0x11066 ≤ n && n ≤ 0x1106F) ||
  (0x110F0 ≤ n && n ≤ 0x110F9) || (0x11136 ≤ n && n ≤ 0x1113F) ||
  (0x111D0 ≤ n && n ≤ 0x111D9) || (0x112F0 ≤ n && n ≤ 0x112F9) ||
  (0x11450 ≤ n && n ≤ 0x11459) || (0x114D0 ≤ n && n ≤ 0x114D9) ||
  (0x11650 ≤ n && n ≤ 0x11659) || (0x116C0 ≤ n && n ≤ 0x116C9) ||
  (0x11730 ≤ n && n ≤ 0x11739) || (0x118E0 ≤ n && n ≤ 0x118E9) ||
  (0x11950 ≤ n && n ≤ 0x11959) || (0x11C50 ≤ n && n ≤ 0x11C59) ||
  (0x11D50 ≤ n && n ≤ 0x11D59) || (0x11DA0 ≤ n && n ≤ 0x11DA9) ||
  (0x16A60 ≤ n && n ≤ 0x16A69) || (0x16AC0 ≤ n && n ≤ 0x16AC9) ||
  (0x16B50 ≤ n && n ≤ 0x16B59) || (0x1D7CE ≤ n && n ≤ 0x1D7FF) ||
  (0x1E140 ≤ n && n ≤ 0x1E149) || (0x1E2F0 ≤ n && n ≤ 0x1E2F9) ||
  (0x1E950 ≤ n && n ≤ 0x1E959) || (0x1FBF0 ≤ n && n ≤ 0x1FBF9)

/-- Test `lstarts p cs` holds when the list `p` is an initial run of `cs`
(the model of `str.startswith` and of matching a literal in a regex). -/
def lstarts : List Char → List Char → Bool
  | [], _ => true
  | _ :: _, [] => false
  | p :: ps, c :: cs => p == c && lstarts ps cs

/-- Python `str.strip()`: drop `pySpace` characters from both ends. -/
def pyStrip (cs : List Char) : List Char :=
  ((cs.dropWhile pySpace).reverse.dropWhile pySpace).reverse

/-- The checked-checkbox glyph `CHECKBOX_CHECKED = '☑'`. -/
def chkChar : Char := '☑'

/-- The unchecked-checkbox glyph `CHECKBOX_UNCHECKED = '☐'`. -/
def uncChar : Char := '☐'

/-- First pass of `convert_checkboxes`: `re.sub(r'\[x\]|\[X\]', CHECKBOX_CHECKED, text)`,
a left-to-right scan replacing each literal `[x]` or `[X]` by the checked glyph. -/
def cbPass1 : List Char → List Char
  | [] => []
  | c :: rest =>
    if c = '[' then
      match rest with
      | d :: e :: rest2 =>
        if (d = 'x' || d = 'X') && e = ']' then chkChar :: cbPass1 rest2
        else '[' :: cbPass1 (d :: e :: rest2)
      | r => '[' :: cbPass1 r
    else c :: cbPass1 rest

/-- Second pass of `convert_checkboxes`: `re.sub(r'\[\s?\]', CHECKBOX_UNCHECKED, text)`.
At each position the greedy `\s?` first tries to take one whitespace
character before the closing bracket, then falls back to none. -/
def cbPass2 : List Char → List Char
  | [] => []
  | c :: rest =>
    if c = '[' then
      match rest with
      | d :: e :: rest2 =>
        if pySpace d && e = ']' then uncChar :: cbPass2 rest2
        else if d = ']' then uncChar :: cbPass2 (e :: rest2)
        else '[' :: cbPass2 (d :: e :: rest2)
      | [d] => if d = ']' then [uncChar] else '[' :: cbPass2 [d]
      | [] => ['[']
    else c :: cbPass2 rest

/-- Function `convert_checkboxes` from `export_service.py`: the checked-box pass
followed by the unchecked-box pass. -/
def convert_checkboxes (text : List Char) : List Char :=
  cbPass2 (cbPass1 text)

example : convert_checkboxes "Tasks: [x] done [ ] pending".data =
    "Tasks: ☑ done ☐ pending".data := by decide

example : convert_checkboxes "[X] a [] b".data = "☑ a ☐ b".data := by decide

example : convert_checkboxes "[[x]]".data = "[☑]".data := by decide

/-- Non-greedy closing-delimiter search for `(.+?)` followed by the literal
delimiter `d`: returns the shortest non-empty run of non-newline characters
`x` such that `d` immediately follows, together with the remainder after
`d`.  This is the backtracking behaviour of `(.+?)` before a literal in the
emphasis pattern of `parse_formatted_text`. -/
def closeAt (d : List Char) : List Char → Option (List Char × List Char)
  | [] => none
  | c :: cs =>
    if c = '\n' then none
    else if lstarts d cs then some ([c], cs.drop d.length)
    else
      match closeAt d cs with
      | some (x, r) => some (c :: x, r)
      | none => none

/-- One attempt of the emphasis alternation
`\*\*\*(.+?)\*\*\*|\*\*(.+?)\*\*|\*(.+?)\*` at the current position:
the three branches are tried in order, each pairing the captured text with
its (bold, italic) flags and returning the remainder after the match. -/
def tryEmph (cs : List Char) : Option ((List Char × Bool × Bool) × List Char) :=
  let t1 := if lstarts ['*', '*', '*'] cs then
      (closeAt ['*', '*', '*'] (cs.drop 3)).map (fun p => ((p.1, true, true), p.2))
    else none
  let t2 := if lstarts ['*', '*'] cs then
      (closeAt ['*', '*'] (cs.drop 2)).map (fun p => ((p.1, true, false), p.2))
    else none
  let t3 := if lstarts ['*'] cs then
      (closeAt ['*'] (cs.drop 1)).map (fun p => ((p.1, false, true), p.2))
    else none
  t1 <|> t2 <|> t3

/-- The `re.finditer` loop of `parse_formatted_text`: scan left to right,
emitting the plain text accumulated since the last match (`acc`, reversed)
before each emphasis match, and flushing the remaining text as a final
plain segment.  `fuel` bounds the recursion; every call supplies
`fuel = cs.length`, which is never exhausted since each step consumes at
least one character. -/
def scanSegsF : Nat → List Char → List Char → List (List Char × Bool × Bool)
  | fuel, acc, cs =>
    match cs with
    | [] => if acc = [] then [] else [(acc.reverse, false, false)]
    | c :: cs1 =>
      match fuel with
      | 0 => [(acc.reverse ++ c :: cs1, false, false)]
      | fuel1 + 1 =>
        match tryEmph (c :: cs1) with
        | some ((x, b, i), r) =>
          (if acc = [] then [] else [(acc.reverse, false, false)]) ++
            (x, b, i) :: scanSegsF fuel1 [] r
        | none => scanSegsF fuel1 (c :: acc) cs1

/-- Function `parse_formatted_text` from `export_service.py`: convert checkboxes,
scan for emphasis spans, and fall back to a single plain segment when the
scan produced no segments. -/
def parse_formatted_text (text : List Char) : List (List Char × Bool × Bool) :=
  let t := convert_checkboxes text
  let segments := scanSegsF t.length [] t
  if segments = [] then [(t, false, false)] else segments

example : parse_formatted_text "Hello **world**".data =
    [("Hello ".data, false, false), ("world".data, true, false)] := by decide

example : parse_formatted_text "a ***b*** c *d*".data =
    [("a ".data, false, false), ("b".data, true, true), (" c ".data, false, false),
     ("d".data, false, true)] := by decide

example : parse_formatted_text "*a**b*".data =
    [("a".data, false, true), ("b".data, false, true)] := by decide

example : parse_formatted_text "***a**".data =
    [("*a".data, true, false)] := by decide

example : parse_formatted_text "plain".data = [("plain".data, false, false)] := by decide

example : parse_formatted_text "".data = [("".data, false, false)] := by decide

example : parse_formatted_text "- [x] done".data =
    [("- ☑ done".data, false, false)] := by decide

/-- Python `content.split('\n')`: the (never empty) list of lines;
`""` splits to `[""]` and a trailing newline yields a final empty line. -/
def splitNl : List Char → List (List Char)
  | [] => [[]]
  | c :: cs =>
    if c = '\n' then [] :: splitNl cs
    else
      match splitNl cs with
      | [] => [[c]]
      | l :: ls => (c :: l) :: ls

/-- Python `'\n'.join(lines)`. -/
def joinNl : List (List Char) → List Char
  | [] => []
  | [l] => l
  | l :: ls => l ++ '\n' :: joinNl ls

/-- The anchored tail `\*{0,2}\s*$` of the header pattern: greedily take
two, one or zero literal stars, after which only whitespace may remain. -/
def hdrTail (cs : List Char) : Bool :=
  (lstarts ['*', '*'] cs && (cs.drop 2).all pySpace) ||
  (lstarts ['*'] cs && (cs.drop 1).all pySpace) ||
  cs.all pySpace

/-- The lazy group `(.+?)` of the header pattern followed by its tail:
the shortest non-empty run of non-newline characters after which
`\*{0,2}\s*$` matches. -/
def hdrGroup : List Char → Option (List Char)
  | [] => none
  | c :: cs =>
    if c = '\n' then none
    else if hdrTail cs then some [c]
    else (hdrGroup cs).map (c :: ·)

/-- The `\*{0,2}` after the header's `\s*`: greedily try two stars, then
one, then none, each followed by the lazy group. -/
def hdrStars (cs : List Char) : Option (List Char) :=
  (if lstarts ['*', '*'] cs then hdrGroup (cs.drop 2) else none) <|>
  (if lstarts ['*'] cs then hdrGroup (cs.drop 1) else none) <|>
  hdrGroup cs

/-- The `\s*` after the leading hashes: greedily consume whitespace,
backtracking one character at a time into `hdrStars`. -/
def hdrSpaces : List Char → Option (List Char)
  | [] => hdrStars []
  | c :: cs =>
    if pySpace c then (hdrSpaces cs) <|> hdrStars (c :: cs)
    else hdrStars (c :: cs)

/-- Model of `re.match(r'^#{1,3}\s*\*{0,2}(.+?)\*{0,2}\s*$', line)`: the captured
group of the markdown-header pattern, or `none` when the line does not
match.  `#{1,3}` greedily takes three, two, then one leading hash. -/
def headerMatch (line : List Char) : Option (List Char) :=
  match line with
  | '#' :: '#' :: '#' :: t => hdrSpaces t <|> hdrSpaces ('#' :: t) <|> hdrSpaces ('#' :: '#' :: t)
  | '#' :: '#' :: t => hdrSpaces t <|> hdrSpaces ('#' :: t)
  | '#' :: t => hdrSpaces t
  | _ => none

/-- The lazy group of the bold-line pattern followed by `\*\*\s*$`:
the shortest non-empty run after which two stars and then only
whitespace remain. -/
def boldScan : List Char → Option (List Char)
  | [] => none
  | c :: cs =>
    if c = '\n' then none
    else if lstarts ['*', '*'] cs && (cs.drop 2).all pySpace then some [c]
    else (boldScan cs).map (c :: ·)

/-- Model of `re.match(r'^\*\*(.+?)\*\*\s*$', line)`: the captured group of the
bold-only-line pattern, or `none`. -/
def boldMatch (line : List Char) : Option (List Char) :=
  match line with
  | '*' :: '*' :: t => boldScan t
  | _ => none

/-- Model of `header_match or bold_match`: the captured heading text of a line,
with the header pattern taking priority. -/
def headingGroup (line : List Char) : Option (List Char) :=
  headerMatch line <|> boldMatch line

/-- A line the section splitter treats as a heading. -/
def isHeading (line : List Char) : Bool :=
  (headingGroup line).isSome

/-- Emitting a pending section in `parse_sections`: nothing if no body
lines were accumulated, else one `(title, body)` pair whose body is the
stripped newline-join of the accumulated lines (kept in reverse order). -/
def flushSec (title : List Char) (accRev : List (List Char)) :
    List (List Char × List Char) :=
  if accRev = [] then [] else [(title, pyStrip (joinNl accRev.reverse))]

/-- The line loop of `parse_sections`: headings flush the pending section
and install a new stripped title; other lines are accumulated verbatim. -/
def sectionsLoop : List (List Char) → List Char → List (List Char) →
    List (List Char × List Char)
  | [], title, accRev => flushSec title accRev
  | line :: rest, title, accRev =>
    match headingGroup line with
    | some g => flushSec title accRev ++ sectionsLoop rest (pyStrip g) []
    | none => sectionsLoop rest title (line :: accRev)

/-- Function `parse_sections` from `export_service.py`. -/
def parse_sections (content : List Char) : List (List Char × List Char) :=
  let secs := sectionsLoop (splitNl content) "Content".data []
  if secs = [] then [("Content".data, content)] else secs

example : parse_sections "".data = [("Content".data, "".data)] := by decide

example : parse_sections "# Intro\nHello **world**\n- [x] done".data =
    [("Intro".data, "Hello **world**\n- [x] done".data)] := by decide

example : parse_sections "no headings\nhere".data =
    [("Content".data, "no headings\nhere".data)] := by decide

example : parse_sections "## **Bold Title**\nbody".data =
    [("Bold Title".data, "body".data)] := by decide

example : parse_sections "**Only**".data =
    [("Content".data, "**Only**".data)] := by decide

example : parse_sections "# A\n\nx\n# B\ny".data =
    [("A".data, "x".data), ("B".data, "y".data)] := by decide

example : headerMatch "# ***T***".data = some "*T*".data := by decide

example : headerMatch "####".data = some "#".data := by decide

example : headerMatch "# ".data = some " ".data := by decide

example : headerMatch "#".data = none := by decide

example : boldMatch "**a** b **c**".data = some "a** b **c".data := by decide

/-- The three paragraph kinds of the body-line loop in `export_to_docx`. -/
inductive LineKind where
  | Bullet
  | Numbered
  | Plain
deriving DecidableEq

/-- Model of `re.match(r'^\d+\.\s*', line)` as a test: the line starts
with at least one decimal digit (`\d`, any Unicode Nd digit) and the
character after the maximal digit run is a period. -/
def numMatch (cs : List Char) : Bool :=
  !(cs.takeWhile pyDigit).isEmpty &&
    lstarts ['.'] (cs.dropWhile pyDigit)

/-- Model of `re.sub(r'^\d+\.\s*', '', line)`: drop the leading decimal
digits (any Unicode Nd digit), the period, and the following whitespace
run (only meaningful when `numMatch` holds). -/
def dropNumbering (cs : List Char) : List Char :=
  ((cs.dropWhile pyDigit).drop 1).dropWhile pySpace

/-- The body-line classification of `export_to_docx` (lines 178-196):
strip the line; skip it when empty; `- ` or `* ` prefixes give bullet
items with the two-character marker removed; a digits-period start gives
a numbered item with the numbering removed; anything else is a plain
paragraph. -/
def classify_line (raw : List Char) : Option (LineKind × List Char) :=
  let line := pyStrip raw
  if line = [] then none
  else if lstarts ['-', ' '] line || lstarts ['*', ' '] line then
    some (LineKind.Bullet, line.drop 2)
  else if numMatch line then some (LineKind.Numbered, dropNumbering line)
  else some (LineKind.Plain, line)

example : classify_line "- Buy milk".data = some (LineKind.Bullet, "Buy milk".data) := by
  decide

example : classify_line "2. Go home".data = some (LineKind.Numbered, "Go home".data) := by
  decide

example : classify_line "   ".data = none := by decide

example : classify_line "12.  spaced".data = some (LineKind.Numbered, "spaced".data) := by
  decide

example : classify_line "5 . no".data = some (LineKind.Plain, "5 . no".data) := by decide

example : classify_line "  * item  ".data = some (LineKind.Bullet, "item".data) := by
  decide

example : classify_line "- ".data = some (LineKind.Plain, "-".data) := by decide

example : classify_line "٣. Go".data = some (LineKind.Numbered, "Go".data) := by decide

example : classify_line "３. full".data = some (LineKind.Numbered, "full".data) := by
  decide

example : classify_line "٣x".data = some (LineKind.Plain, "٣x".data) := by decide

/-- The characters removed by `sanitize_filename`'s character class. -/
def isForbidden (c : Char) : Bool :=
  c = '<' || c = '>' || c = ':' || c = '"' || c = '/' || c = '\\' ||
  c = '|' || c = '?' || c = '*'

/-- Function `sanitize_filename` from `export_service.py`:
`re.sub` with a single-character class deletes exactly the forbidden
characters, and the slice keeps the first 50 characters. -/
def sanitize_filename (name : List Char) : List Char :=
  (name.filter (fun c => !isForbidden c)).take 50

/-- The five version keys of `VERSION_NAMES`. -/
def versionKeys : List (List Char) :=
  ["simplified".data, "on_level".data, "enriched".data, "visual_heavy".data,
   "scaffolded".data]

/-- Model of `sanitize_filename(form_data.get('learning_objective', 'materials')[:30])`,
shared by all four exporters; the optional form-data entry defaults to
`materials`. -/
def objective_short (lo : Option (List Char)) : List Char :=
  sanitize_filename ((lo.getD "materials".data).take 30)

/-- The output filename of `export_to_docx`. -/
def docx_filename (lo : Option (List Char)) (version_key : List Char) : List Char :=
  "UDL_".data ++ version_key ++ '_' :: objective_short lo ++ ".docx".data

/-- The output filename of `export_to_pdf`. -/
def pdf_filename (lo : Option (List Char)) (version_key : List Char) : List Char :=
  "UDL_".data ++ version_key ++ '_' :: objective_short lo ++ ".pdf".data

/-- The output filename of `export_to_pptx`. -/
def pptx_filename (lo : Option (List Char)) (version_key : List Char) : List Char :=
  "UDL_".data ++ version_key ++ '_' :: objective_short lo ++ ".pptx".data

/-- The output filename of `export_all_to_xlsx`. -/
def xlsx_filename (lo : Option (List Char)) : List Char :=
  "UDL_AllVersions_".data ++ objective_short lo ++ ".xlsx".data

example : docx_filename
    (some "Identify main idea: a very long objective text exceeding thirty chars".data)
    "on_level".data = "UDL_on_level_Identify main idea a very lon.docx".data := by decide

/-- One version entry of the `materials` dict: both dictionary keys may
be absent, which `Option` records. -/
structure VersionData where
  content : Option (List Char)
  error : Option (List Char)

/-- The content-resolution step shared by the exporters
(`export_to_docx` lines 153-154):
`materials.get(version_key, {}).get('content', 'No content generated')`. -/
def resolve_content (materials : List Char → Option VersionData)
    (version_key : List Char) : List Char :=
  match materials version_key with
  | none => "No content generated".data
  | some vd => vd.content.getD "No content generated".data

/-- Modelled from the claim's words for comparison with
`convert_checkboxes`: a single left-to-right scan replacing exactly the
tokens `[x]` and `[X]` by the checked glyph and the tokens `[]` and
`[ ]` (zero or one interior space character, and nothing else) by the
unchecked glyph, copying all other characters. -/
def specCheckboxesSpace : List Char → List Char
  | [] => []
  | c :: rest =>
    if c = '[' then
      match rest with
      | d :: e :: rest2 =>
        if (d = 'x' || d = 'X') && e = ']' then chkChar :: specCheckboxesSpace rest2
        else if d = ' ' && e = ']' then uncChar :: specCheckboxesSpace rest2
        else if d = ']' then uncChar :: specCheckboxesSpace (e :: rest2)
        else '[' :: specCheckboxesSpace (d :: e :: rest2)
      | [d] => if d = ']' then [uncChar] else '[' :: specCheckboxesSpace [d]
      | [] => ['[']
    else c :: specCheckboxesSpace rest

/-- The whitespace-generalised token scan: a single left-to-right scan
replacing the tokens `[x]` and `[X]` by the checked glyph and `[]` or
`[` + one whitespace character + `]` by the unchecked glyph, copying all
other characters.  `convert_checkboxes` is proved equal to it. -/
def specCheckboxes : List Char → List Char
  | [] => []
  | c :: rest =>
    if c = '[' then
      match rest with
      | d :: e :: rest2 =>
        if (d = 'x' || d = 'X') && e = ']' then chkChar :: specCheckboxes rest2
        else if pySpace d && e = ']' then uncChar :: specCheckboxes rest2
        else if d = ']' then uncChar :: specCheckboxes (e :: rest2)
        else '[' :: specCheckboxes (d :: e :: rest2)
      | [d] => if d = ']' then [uncChar] else '[' :: specCheckboxes [d]
      | [] => ['[']
    else c :: specCheckboxes rest

/-- Scanner deciding whether any checkbox token (checked or unchecked,
whitespace form) occurs in the text. -/
def hasCheckboxTok : List Char → Bool
  | [] => false
  | c :: rest =>
    if c = '[' then
      match rest with
      | d :: e :: rest2 =>
        if ((d = 'x' || d = 'X' || pySpace d) && e = ']') || d = ']' then true
        else hasCheckboxTok (d :: e :: rest2)
      | [d] => d = ']'
      | [] => false
    else hasCheckboxTok rest

example : convert_checkboxes "[\t]".data = [uncChar] := by decide

example : specCheckboxesSpace "[\t]".data = "[\t]".data := by decide

/-- The emphasis delimiter a segment's flags record: `***` for
bold-italic, `**` for bold, `*` for italic, nothing for plain text. -/
def emphDelim : Bool → Bool → List Char
  | true, true => ['*', '*', '*']
  | true, false => ['*', '*']
  | false, true => ['*']
  | false, false => []

/-- A segment re-serialised with its emphasis markers re-inserted. -/
def wrapSeg : List Char × Bool × Bool → List Char
  | (x, b, i) => emphDelim b i ++ x ++ emphDelim b i

/-- Modelled from the spec: drop the one to three leading `#` characters
of a heading line (the heading markers). -/
def dropHashes : List Char → List Char
  | '#' :: '#' :: '#' :: t => t
  | '#' :: '#' :: t => t
  | '#' :: t => t
  | t => t

/-- Modelled from the spec: strip leading and trailing `*` characters and
whitespace from both ends. -/
def stripStarsWs (cs : List Char) : List Char :=
  ((cs.dropWhile (fun c => c = '*' || pySpace c)).reverse.dropWhile
    (fun c => c = '*' || pySpace c)).reverse

/-- Modelled from the spec: the title the claim ascribes to a heading
line, namely the inner text after the heading markers with leading and
trailing `*` characters and whitespace stripped. -/
def specTitle (line : List Char) : List Char :=
  stripStarsWs (dropHashes (pyStrip line))

theorem cb1_not_lb {c : Char} (u : List Char) (h : c ≠ '[') :
    cbPass1 (c :: u) = c :: cbPass1 u := by
  rw [cbPass1.eq_def]
  simp [h]

theorem cb2_not_lb {c : Char} (u : List Char) (h : c ≠ '[') :
    cbPass2 (c :: u) = c :: cbPass2 u := by
  rw [cbPass2.eq_def]
  simp [h]

theorem spec_not_lb {c : Char} (u : List Char) (h : c ≠ '[') :
    specCheckboxes (c :: u) = c :: specCheckboxes u := by
  rw [specCheckboxes.eq_def]
  simp [h]

theorem cb1_single (d : Char) : cbPass1 [d] = [d] := by
  by_cases h : d = '['
  · subst h; rfl
  · rw [cb1_not_lb [] h]; rfl

theorem cb2_single {d : Char} (h : d ≠ ']') : cbPass2 [d] = [d] := by
  by_cases h2 : d = '['
  · subst h2; rfl
  · rw [cb2_not_lb [] h2]; rfl

theorem spec_single {d : Char} (h : d ≠ ']') : specCheckboxes [d] = [d] := by
  by_cases h2 : d = '['
  · subst h2; rfl
  · rw [spec_not_lb [] h2]; rfl

theorem cb1_ne_nil (a : Char) (v : List Char) : cbPass1 (a :: v) ≠ [] := by
  by_cases h : a = '['
  · subst h
    match v with
    | [] => simp [cbPass1]
    | [d] => simp [cbPass1]
    | d :: e :: rest2 =>
      rw [cbPass1.eq_def]
      by_cases hc : ((d = 'x' || d = 'X') && e = ']') = true
      · simp [hc]
      · simp [hc]
  · simp [cb1_not_lb v h]

theorem cb1_head (a : Char) (v : List Char) :
    (∃ w, cbPass1 (a :: v) = a :: w) ∨ (∃ w, cbPass1 (a :: v) = chkChar :: w) := by
  by_cases h : a = '['
  · subst h
    match v with
    | [] => exact Or.inl ⟨[], rfl⟩
    | [d] => exact Or.inl ⟨cbPass1 [d], by rw [cbPass1.eq_def]; simp⟩
    | d :: e :: rest2 =>
      by_cases hc : ((d = 'x' || d = 'X') && e = ']') = true
      · refine Or.inr ⟨cbPass1 rest2, ?_⟩
        rw [cbPass1.eq_def]
        simp [hc]
      · refine Or.inl ⟨cbPass1 (d :: e :: rest2), ?_⟩
        rw [cbPass1.eq_def]
        simp [hc]
  · exact Or.inl ⟨cbPass1 v, cb1_not_lb v h⟩

theorem cc_eq_spec (t : List Char) : convert_checkboxes t = specCheckboxes t := by
  unfold convert_checkboxes
  induction t using specCheckboxes.induct
  case case1 => rfl
  case case2 d e rest2 hc ih =>
    have h1 : cbPass1 ('[' :: d :: e :: rest2) = chkChar :: cbPass1 rest2 := by
      rw [cbPass1.eq_def]
      simp [hc]
    have hr : specCheckboxes ('[' :: d :: e :: rest2) = chkChar :: specCheckboxes rest2 := by
      rw [specCheckboxes.eq_def]
      simp [hc]
    rw [h1, cb2_not_lb _ (by decide), ih, hr]
  case case3 d e rest2 hc1 hc2 ih =>
    have hd : pySpace d = true := by
      simp only [Bool.and_eq_true] at hc2
      exact hc2.1
    have he : e = ']' := by
      simp only [Bool.and_eq_true, decide_eq_true_eq] at hc2
      exact hc2.2
    have hdl : d ≠ '[' := by
      intro h
      rw [h] at hd
      exact absurd hd (by decide)
    have h1 : cbPass1 ('[' :: d :: e :: rest2) = '[' :: d :: e :: cbPass1 rest2 := by
      rw [cbPass1.eq_def]
      simp only [hc1, if_false, reduceIte, if_true]
      rw [cb1_not_lb _ hdl, he, cb1_not_lb _ (by decide)]
      simp
    have h2 : cbPass2 ('[' :: d :: e :: cbPass1 rest2) = uncChar :: cbPass2 (cbPass1 rest2) := by
      rw [cbPass2.eq_def]
      simp [hd, he]
    have hdx : ¬(d = 'x' ∨ d = 'X') := by
      intro h
      rw [he] at hc1
      rcases h with h | h <;> simp [h] at hc1
    have hr : specCheckboxes ('[' :: d :: e :: rest2) = uncChar :: specCheckboxes rest2 := by
      rw [specCheckboxes.eq_def]
      simp [hdx, hd, he]
    rw [h1, h2, ih, hr]
  case case4 e rest2 hc1 hc2 ih =>
    have h1 : cbPass1 ('[' :: ']' :: e :: rest2) = '[' :: ']' :: cbPass1 (e :: rest2) := by
      rw [cbPass1.eq_def]
      simp only [hc1, if_false, reduceIte, if_true, Bool.false_eq_true]
      rw [cb1_not_lb _ (by decide)]
    obtain ⟨w0, w1, hw⟩ := List.exists_cons_of_ne_nil (cb1_ne_nil e rest2)
    have h2 : cbPass2 ('[' :: ']' :: cbPass1 (e :: rest2)) =
        uncChar :: cbPass2 (cbPass1 (e :: rest2)) := by
      rw [hw, cbPass2.eq_def]
      simp [show pySpace ']' = false by decide]
    have hr : specCheckboxes ('[' :: ']' :: e :: rest2) =
        uncChar :: specCheckboxes (e :: rest2) := by
      rw [specCheckboxes.eq_def]
      simp [hc1, hc2]
    rw [h1, h2, ih, hr]
  case case5 d e rest2 hc1 hc2 hc3 ih =>
    have h1 : cbPass1 ('[' :: d :: e :: rest2) = '[' :: cbPass1 (d :: e :: rest2) := by
      rw [cbPass1.eq_def]
      simp [hc1]
    have h2 : cbPass2 ('[' :: cbPass1 (d :: e :: rest2)) =
        '[' :: cbPass2 (cbPass1 (d :: e :: rest2)) := by
      rcases cb1_head d (e :: rest2) with ⟨w, hw⟩ | ⟨w, hw⟩
      · match w, hw with
        | [], hw =>
          rw [hw, cbPass2.eq_def]
          simp [hc3, ← hw]
        | w0 :: w1, hw =>
          have hne : (pySpace d && decide (w0 = ']')) = false := by
            by_cases hd : pySpace d = true
            · have hdx : d ≠ '[' := by
                intro h; rw [h] at hd; exact absurd hd (by decide)
              have hw2 : cbPass1 (d :: e :: rest2) = d :: cbPass1 (e :: rest2) :=
                cb1_not_lb _ hdx
              have hweq : w0 :: w1 = cbPass1 (e :: rest2) := by
                simpa using hw.symm.trans hw2
              have he : e ≠ ']' := by
                intro h
                rw [Bool.and_eq_true] at hc2
                exact hc2 ⟨hd, by simp [h]⟩
              have hw0 : w0 ≠ ']' := by
                rcases cb1_head e rest2 with ⟨w2, hw3⟩ | ⟨w2, hw3⟩
                · obtain ⟨h4, -⟩ : w0 = e ∧ w1 = w2 := by simpa using hweq.trans hw3
                  rw [h4]; exact he
                · obtain ⟨h4, -⟩ : w0 = chkChar ∧ w1 = w2 := by simpa using hweq.trans hw3
                  rw [h4]; decide
              simp [hw0]
            · simp [Bool.eq_false_iff.mpr hd]
          rw [hw, cbPass2.eq_def]
          simp only [hne, reduceIte, Bool.false_eq_true, if_false, if_true]
          by_cases hd2 : d = ']'
          · exact absurd hd2 hc3
          · simp [hd2, ← hw]
      · match w, hw with
        | [], hw =>
          rw [hw, cbPass2.eq_def]
          simp [show chkChar ≠ ']' by decide, ← hw]
        | w0 :: w1, hw =>
          rw [hw, cbPass2.eq_def]
          simp [show pySpace chkChar = false by decide,
                show chkChar ≠ ']' by decide, ← hw]
    have hr : specCheckboxes ('[' :: d :: e :: rest2) =
        '[' :: specCheckboxes (d :: e :: rest2) := by
      rw [specCheckboxes.eq_def]
      simp [hc1, hc2, hc3]
    rw [h1, h2, ih, hr]
  case case6 => decide
  case case7 d hd ih =>
    have h1 : cbPass1 ['[', d] = '[' :: cbPass1 [d] := by
      rw [cbPass1.eq_def]
      simp
    have h2 : cbPass2 ['[', d] = '[' :: cbPass2 [d] := by
      rw [cbPass2.eq_def]
      simp [hd]
    have hr : specCheckboxes ['[', d] = '[' :: specCheckboxes [d] := by
      rw [specCheckboxes.eq_def]
      simp [hd]
    rw [h1, cb1_single d, h2, cb2_single hd, hr, spec_single hd]
  case case8 => decide
  case case9 c rest hc ih =>
    rw [cb1_not_lb _ hc, cb2_not_lb _ hc, ih, spec_not_lb _ hc]

theorem spec_unfold (d e : Char) (r : List Char) :
    specCheckboxes ('[' :: d :: e :: r) =
      (if (d = 'x' || d = 'X') && e = ']' then chkChar :: specCheckboxes r
       else if pySpace d && e = ']' then uncChar :: specCheckboxes r
       else if d = ']' then uncChar :: specCheckboxes (e :: r)
       else '[' :: specCheckboxes (d :: e :: r)) := rfl

theorem spec_unfold_two (d : Char) :
    specCheckboxes ['[', d] =
      (if d = ']' then [uncChar] else '[' :: specCheckboxes [d]) := rfl

theorem hasTok_unfold (d e : Char) (r : List Char) :
    hasCheckboxTok ('[' :: d :: e :: r) =
      (if ((d = 'x' || d = 'X' || pySpace d) && e = ']') || d = ']' then true
       else hasCheckboxTok (d :: e :: r)) := rfl

theorem spec_head (a : Char) (v : List Char) :
    (∃ w, specCheckboxes (a :: v) = a :: w) ∨
    (∃ w, specCheckboxes (a :: v) = chkChar :: w) ∨
    (∃ w, specCheckboxes (a :: v) = uncChar :: w) := by
  by_cases h : a = '['
  · subst h
    match v with
    | [] => exact Or.inl ⟨[], rfl⟩
    | [d] =>
      by_cases hd : d = ']'
      · subst hd
        exact Or.inr (Or.inr ⟨[], by decide⟩)
      · refine Or.inl ⟨[d], ?_⟩
        rw [spec_unfold_two, if_neg hd, spec_single hd]
    | d :: e :: rest2 =>
      rw [spec_unfold]
      by_cases hc1 : ((d = 'x' || d = 'X') && e = ']') = true
      · rw [if_pos hc1]
        exact Or.inr (Or.inl ⟨_, rfl⟩)
      · rw [if_neg hc1]
        by_cases hc2 : (pySpace d && e = ']') = true
        · rw [if_pos hc2]
          exact Or.inr (Or.inr ⟨_, rfl⟩)
        · rw [if_neg hc2]
          by_cases hc3 : d = ']'
          · rw [if_pos hc3]
            exact Or.inr (Or.inr ⟨_, rfl⟩)
          · rw [if_neg hc3]
            exact Or.inl ⟨_, rfl⟩
  · exact Or.inl ⟨specCheckboxes v, spec_not_lb v h⟩

theorem spec_idem (t : List Char) :
    specCheckboxes (specCheckboxes t) = specCheckboxes t := by
  induction t using specCheckboxes.induct
  case case1 => rfl
  case case2 d e rest2 hc ih =>
    rw [spec_unfold, if_pos hc, spec_not_lb _ (by decide), ih]
  case case3 d e rest2 hc1 hc2 ih =>
    rw [spec_unfold, if_neg hc1, if_pos hc2, spec_not_lb _ (by decide), ih]
  case case4 e rest2 hc1 hc2 ih =>
    rw [spec_unfold, if_neg hc1, if_neg hc2, if_pos rfl, spec_not_lb _ (by decide), ih]
  case case5 d e rest2 hc1 hc2 hc3 ih =>
    rw [spec_unfold, if_neg hc1, if_neg hc2, if_neg hc3]
    rcases spec_head d (e :: rest2) with ⟨w, hw⟩ | ⟨w, hw⟩ | ⟨w, hw⟩
    · match w, hw with
      | [], hw =>
        rw [hw, spec_unfold_two, if_neg hc3, ← hw, ih, hw]
      | w0 :: w1, hw =>
        have hxc : ¬((d = 'x' || d = 'X') && w0 = ']') = true ∧
            ¬(pySpace d && w0 = ']') = true := by
          by_cases hdc : (d = 'x' ∨ d = 'X') ∨ pySpace d = true
          · have hdx : d ≠ '[' := by
              rcases hdc with h | h
              · rcases h with h | h <;> (rw [h]; decide)
              · intro h2
                rw [h2] at h
                exact absurd h (by decide)
            have hw2 : specCheckboxes (d :: e :: rest2) = d :: specCheckboxes (e :: rest2) :=
              spec_not_lb _ hdx
            have hweq : w0 :: w1 = specCheckboxes (e :: rest2) := by
              simpa using hw.symm.trans hw2
            have he : e ≠ ']' := by
              intro h
              rcases hdc with hd | hd
              · exact hc1 (by simp [h, hd])
              · exact hc2 (by simp [h, hd])
            have hw0 : w0 ≠ ']' := by
              rcases spec_head e rest2 with ⟨w2, hw3⟩ | ⟨w2, hw3⟩ | ⟨w2, hw3⟩
              · obtain ⟨h4, -⟩ : w0 = e ∧ w1 = w2 := by simpa using hweq.trans hw3
                rw [h4]; exact he
              · obtain ⟨h4, -⟩ : w0 = chkChar ∧ w1 = w2 := by simpa using hweq.trans hw3
                rw [h4]; decide
              · obtain ⟨h4, -⟩ : w0 = uncChar ∧ w1 = w2 := by simpa using hweq.trans hw3
                rw [h4]; decide
            constructor
            · simp [hw0]
            · simp [hw0]
          · push_neg at hdc
            constructor
            · simp [hdc.1.1, hdc.1.2]
            · simp [Bool.eq_false_iff.mpr hdc.2]
        rw [hw, spec_unfold, if_neg hxc.1, if_neg hxc.2, if_neg hc3, ← hw, ih, hw]
    · match w, hw with
      | [], hw =>
        rw [hw, spec_unfold_two, if_neg (by decide), ← hw, ih, hw]
      | w0 :: w1, hw =>
        rw [hw, spec_unfold, if_neg (by simp [show chkChar ≠ 'x' by decide,
              show chkChar ≠ 'X' by decide]),
            if_neg (by simp [show pySpace chkChar = false by decide]),
            if_neg (by decide), ← hw, ih, hw]
    · match w, hw with
      | [], hw =>
        rw [hw, spec_unfold_two, if_neg (by decide), ← hw, ih, hw]
      | w0 :: w1, hw =>
        rw [hw, spec_unfold, if_neg (by simp [show uncChar ≠ 'x' by decide,
              show uncChar ≠ 'X' by decide]),
            if_neg (by simp [show pySpace uncChar = false by decide]),
            if_neg (by decide), ← hw, ih, hw]
  case case6 => decide
  case case7 d hd ih =>
    rw [spec_unfold_two, if_neg hd, spec_single hd, spec_unfold_two, if_neg hd,
        spec_single hd]
  case case8 => decide
  case case9 c rest hc ih =>
    rw [spec_not_lb _ hc, spec_not_lb _ hc, ih]

theorem spec_noTok : ∀ s, hasCheckboxTok s = false → specCheckboxes s = s := by
  intro s
  induction s using specCheckboxes.induct
  case case1 => intro h; rfl
  case case2 d e rest2 hc ih =>
    intro h
    rw [hasTok_unfold] at h
    obtain ⟨hd, he⟩ : (d = 'x' ∨ d = 'X') ∧ e = ']' := by simpa using hc
    rcases hd with hd | hd <;> simp [hd, he] at h
  case case3 d e rest2 hc1 hc2 ih =>
    intro h
    rw [hasTok_unfold] at h
    obtain ⟨hd, he⟩ : pySpace d = true ∧ e = ']' := by simpa using hc2
    simp [hd, he] at h
  case case4 e rest2 hc1 hc2 ih =>
    intro h
    rw [hasTok_unfold] at h
    simp at h
  case case5 d e rest2 hc1 hc2 hc3 ih =>
    intro h
    rw [hasTok_unfold] at h
    have hcond : (((d = 'x' || d = 'X' || pySpace d) && e = ']') || d = ']') = false := by
      by_cases he : e = ']'
      · have hx : d ≠ 'x' := fun hh => hc1 (by simp [hh, he])
        have hX : d ≠ 'X' := fun hh => hc1 (by simp [hh, he])
        have hs : pySpace d = false := by
          by_cases hp : pySpace d = true
          · exact absurd (by simp [hp, he]) hc2
          · exact Bool.eq_false_iff.mpr hp
        simp [hx, hX, hs, hc3, he]
      · simp [he, hc3]
    rw [hcond] at h
    simp only [Bool.false_eq_true, if_false] at h
    rw [spec_unfold, if_neg hc1, if_neg hc2, if_neg hc3, ih h]
  case case6 =>
    intro h
    exact absurd h (by decide)
  case case7 d hd ih =>
    intro h
    rw [spec_unfold_two, if_neg hd, spec_single hd]
  case case8 =>
    intro h
    rfl
  case case9 c rest hc ih =>
    intro h
    have h2 : hasCheckboxTok rest = false := by
      rw [hasCheckboxTok.eq_def] at h
      simpa [hc] using h
    rw [spec_not_lb _ hc, ih h2]

theorem lstarts_decomp : ∀ (p cs : List Char), lstarts p cs = true →
    cs = p ++ cs.drop p.length := by
  intro p
  induction p with
  | nil => intro cs h; simp
  | cons a ps ih =>
    intro cs h
    match cs with
    | [] => exact absurd h (by simp [lstarts])
    | c :: cs1 =>
      obtain ⟨h1, h2⟩ : (a == c) = true ∧ lstarts ps cs1 = true := by
        simpa [lstarts] using h
      have h3 := ih cs1 h2
      simp only [List.length_cons, List.drop_succ_cons, List.cons_append]
      rw [(beq_iff_eq.mp h1), ← h3]

theorem closeAt_cons (d : List Char) (c : Char) (cs : List Char) :
    closeAt d (c :: cs) =
      (if c = '\n' then none
       else if lstarts d cs then some ([c], cs.drop d.length)
       else
         match closeAt d cs with
         | some (x, r) => some (c :: x, r)
         | none => none) := rfl

theorem closeAt_decomp (d : List Char) : ∀ (cs x r : List Char),
    closeAt d cs = some (x, r) → cs = x ++ d ++ r ∧ x ≠ [] := by
  intro cs
  induction cs with
  | nil =>
    intro x r h
    exact absurd h (by simp [closeAt])
  | cons c cs1 ih =>
    intro x r h
    rw [closeAt_cons] at h
    by_cases h1 : c = '\n'
    · rw [if_pos h1] at h
      exact absurd h (by simp)
    · rw [if_neg h1] at h
      by_cases h2 : lstarts d cs1 = true
      · rw [if_pos h2] at h
        obtain ⟨hx, hr⟩ : [c] = x ∧ cs1.drop d.length = r := by simpa using h
        refine ⟨?_, by rw [← hx]; simp⟩
        rw [← hx, ← hr]
        conv_lhs => rw [lstarts_decomp d cs1 h2]
        simp
      · rw [if_neg h2] at h
        match h3 : closeAt d cs1 with
        | none =>
          rw [h3] at h
          exact absurd h (by simp)
        | some (x1, r1) =>
          rw [h3] at h
          obtain ⟨hx, hr⟩ : c :: x1 = x ∧ r1 = r := by simpa using h
          refine ⟨?_, by rw [← hx]; simp⟩
          rw [← hx, ← hr]
          obtain ⟨hd, -⟩ := ih x1 r1 h3
          rw [hd]
          simp


theorem emphBranch_decomp (dl cs x r : List Char) (hs : lstarts dl cs = true)
    (hc : closeAt dl (cs.drop dl.length) = some (x, r)) :
    cs = dl ++ x ++ dl ++ r ∧ x ≠ [] := by
  obtain ⟨hd, hne⟩ := closeAt_decomp dl _ x r hc
  refine ⟨?_, hne⟩
  conv_lhs => rw [lstarts_decomp dl cs hs]
  rw [hd]
  simp

theorem tryEmph_decomp (cs x r : List Char) (b i : Bool)
    (h : tryEmph cs = some ((x, b, i), r)) :
    cs = emphDelim b i ++ x ++ emphDelim b i ++ r ∧ x ≠ [] := by
  unfold tryEmph at h
  simp only at h
  by_cases h3 : lstarts ['*', '*', '*'] cs = true
  · rw [if_pos h3] at h
    match hc : closeAt ['*', '*', '*'] (cs.drop 3) with
    | some (x1, r1) =>
      rw [hc] at h
      obtain ⟨⟨hx, hb, hi⟩, hr⟩ : (x = x1 ∧ b = true ∧ i = true) ∧ r = r1 := by
        simpa using h.symm
      rw [hx, hr, hb, hi]
      exact emphBranch_decomp ['*', '*', '*'] cs x1 r1 h3 hc
    | none =>
      rw [hc] at h
      simp only [Option.map_none', Option.none_orElse] at h
      by_cases h2 : lstarts ['*', '*'] cs = true
      · rw [if_pos h2] at h
        match hc2 : closeAt ['*', '*'] (cs.drop 2) with
        | some (x1, r1) =>
          rw [hc2] at h
          obtain ⟨⟨hx, hb, hi⟩, hr⟩ : (x = x1 ∧ b = true ∧ i = false) ∧ r = r1 := by
            simpa using h.symm
          rw [hx, hr, hb, hi]
          exact emphBranch_decomp ['*', '*'] cs x1 r1 h2 hc2
        | none =>
          rw [hc2] at h
          simp only [Option.map_none', Option.none_orElse] at h
          by_cases h1 : lstarts ['*'] cs = true
          · rw [if_pos h1] at h
            match hc1 : closeAt ['*'] (cs.drop 1) with
            | some (x1, r1) =>
              rw [hc1] at h
              obtain ⟨⟨hx, hb, hi⟩, hr⟩ : (x = x1 ∧ b = false ∧ i = true) ∧ r = r1 := by
                simpa using h.symm
              rw [hx, hr, hb, hi]
              exact emphBranch_decomp ['*'] cs x1 r1 h1 hc1
            | none =>
              rw [hc1] at h
              exact absurd h (by simp)
          · rw [if_neg h1] at h
            exact absurd h (by simp)
      · rw [if_neg h2] at h
        simp only [Option.none_orElse] at h
        by_cases h1 : lstarts ['*'] cs = true
        · rw [if_pos h1] at h
          match hc1 : closeAt ['*'] (cs.drop 1) with
          | some (x1, r1) =>
            rw [hc1] at h
            obtain ⟨⟨hx, hb, hi⟩, hr⟩ : (x = x1 ∧ b = false ∧ i = true) ∧ r = r1 := by
              simpa using h.symm
            rw [hx, hr, hb, hi]
            exact emphBranch_decomp ['*'] cs x1 r1 h1 hc1
          | none =>
            rw [hc1] at h
            exact absurd h (by simp)
        · rw [if_neg h1] at h
          exact absurd h (by simp)
  · rw [if_neg h3] at h
    simp only [Option.none_orElse] at h
    by_cases h2 : lstarts ['*', '*'] cs = true
    · rw [if_pos h2] at h
      match hc2 : closeAt ['*', '*'] (cs.drop 2) with
      | some (x1, r1) =>
        rw [hc2] at h
        obtain ⟨⟨hx, hb, hi⟩, hr⟩ : (x = x1 ∧ b = true ∧ i = false) ∧ r = r1 := by
          simpa using h.symm
        rw [hx, hr, hb, hi]
        exact emphBranch_decomp ['*', '*'] cs x1 r1 h2 hc2
      | none =>
        rw [hc2] at h
        simp only [Option.map_none', Option.none_orElse] at h
        by_cases h1 : lstarts ['*'] cs = true
        · rw [if_pos h1] at h
          match hc1 : closeAt ['*'] (cs.drop 1) with
          | some (x1, r1) =>
            rw [hc1] at h
            obtain ⟨⟨hx, hb, hi⟩, hr⟩ : (x = x1 ∧ b = false ∧ i = true) ∧ r = r1 := by
              simpa using h.symm
            rw [hx, hr, hb, hi]
            exact emphBranch_decomp ['*'] cs x1 r1 h1 hc1
          | none =>
            rw [hc1] at h
            exact absurd h (by simp)
        · rw [if_neg h1] at h
          exact absurd h (by simp)
    · rw [if_neg h2] at h
      by_cases h1 : lstarts ['*'] cs = true
      · rw [if_pos h1] at h
        simp only [Option.none_orElse] at h
        match hc1 : closeAt ['*'] (cs.drop 1) with
        | some (x1, r1) =>
          rw [hc1] at h
          obtain ⟨⟨hx, hb, hi⟩, hr⟩ : (x = x1 ∧ b = false ∧ i = true) ∧ r = r1 := by
            simpa using h.symm
          rw [hx, hr, hb, hi]
          exact emphBranch_decomp ['*'] cs x1 r1 h1 hc1
        | none =>
          rw [hc1] at h
          exact absurd h (by simp)
      · rw [if_neg h1] at h
        exact absurd h (by simp)

theorem scan_nil (fuel : Nat) (acc : List Char) :
    scanSegsF fuel acc [] = (if acc = [] then [] else [(acc.reverse, false, false)]) := by
  cases fuel <;> rfl

theorem scan_zero (acc : List Char) (c : Char) (cs1 : List Char) :
    scanSegsF 0 acc (c :: cs1) = [(acc.reverse ++ c :: cs1, false, false)] := rfl

theorem scan_succ_some (fuel1 : Nat) (acc : List Char) (c : Char) (cs1 x : List Char)
    (b i : Bool) (r : List Char) (h : tryEmph (c :: cs1) = some ((x, b, i), r)) :
    scanSegsF (fuel1 + 1) acc (c :: cs1) =
      (if acc = [] then [] else [(acc.reverse, false, false)]) ++
        (x, b, i) :: scanSegsF fuel1 [] r := by
  have h0 : scanSegsF (fuel1 + 1) acc (c :: cs1) =
      match tryEmph (c :: cs1) with
      | some ((x, b, i), r) =>
        (if acc = [] then [] else [(acc.reverse, false, false)]) ++
          (x, b, i) :: scanSegsF fuel1 [] r
      | none => scanSegsF fuel1 (c :: acc) cs1 := rfl
  rw [h0, h]

theorem scan_succ_none (fuel1 : Nat) (acc : List Char) (c : Char) (cs1 : List Char)
    (h : tryEmph (c :: cs1) = none) :
    scanSegsF (fuel1 + 1) acc (c :: cs1) = scanSegsF fuel1 (c :: acc) cs1 := by
  have h0 : scanSegsF (fuel1 + 1) acc (c :: cs1) =
      match tryEmph (c :: cs1) with
      | some ((x, b, i), r) =>
        (if acc = [] then [] else [(acc.reverse, false, false)]) ++
          (x, b, i) :: scanSegsF fuel1 [] r
      | none => scanSegsF fuel1 (c :: acc) cs1 := rfl
  rw [h0, h]

theorem scan_wrap (fuel : Nat) (acc cs : List Char) :
    ((scanSegsF fuel acc cs).map wrapSeg).flatten = acc.reverse ++ cs := by
  induction fuel, acc, cs using scanSegsF.induct
  case case1 fuel =>
    simp [scan_nil]
  case case2 fuel acc h =>
    simp [scan_nil, h, wrapSeg, emphDelim]
  case case3 acc c cs1 =>
    simp [scan_zero, wrapSeg, emphDelim]
  case case4 acc c cs1 fuel1 x b i r h ih =>
    obtain ⟨hdec, -⟩ := tryEmph_decomp _ _ _ _ _ h
    rw [scan_succ_some fuel1 acc c cs1 x b i r h]
    by_cases ha : acc = []
    · simp [ha, ih, wrapSeg, hdec, emphDelim]
    · simp [ha, ih, wrapSeg, hdec, emphDelim]
  case case5 acc c cs1 fuel1 h ih =>
    rw [scan_succ_none fuel1 acc c cs1 h, ih]
    simp

theorem tryEmph_not_star (c : Char) (cs1 : List Char) (h : c ≠ '*') :
    tryEmph (c :: cs1) = none := by
  unfold tryEmph
  simp [lstarts, Ne.symm h]

theorem scan_no_star : ∀ (cs : List Char), (∀ c ∈ cs, c ≠ '*') → ∀ (fuel : Nat) (acc : List Char),
    scanSegsF fuel acc cs =
      (if acc.reverse ++ cs = [] then [] else [(acc.reverse ++ cs, false, false)]) := by
  intro cs
  induction cs with
  | nil =>
    intro hs fuel acc
    rw [scan_nil]
    by_cases h : acc = []
    · simp [h]
    · simp [h]
  | cons c cs1 ih =>
    intro hs fuel acc
    have hc : c ≠ '*' := hs c (by simp)
    match fuel with
    | 0 =>
      rw [scan_zero]
      simp
    | fuel1 + 1 =>
      rw [scan_succ_none fuel1 acc c cs1 (tryEmph_not_star c cs1 hc)]
      rw [ih (fun a ha => hs a (by simp [ha])) fuel1 (c :: acc)]
      simp

theorem cc_noTok (s : List Char) (h : hasCheckboxTok s = false) :
    convert_checkboxes s = s := by
  rw [cc_eq_spec]
  exact spec_noTok s h

theorem splitNl_ne_nil : ∀ (cs : List Char), splitNl cs ≠ [] := by
  intro cs
  match cs with
  | [] => simp [splitNl]
  | c :: cs1 =>
    rw [splitNl.eq_def]
    by_cases h : c = '\n'
    · simp [h]
    · simp only [if_neg h]
      match h2 : splitNl cs1 with
      | [] => simp
      | l :: ls => simp

theorem splitNl_cons (c : Char) (cs : List Char) :
    splitNl (c :: cs) =
      (if c = '\n' then [] :: splitNl cs
       else
         match splitNl cs with
         | [] => [[c]]
         | l :: ls => (c :: l) :: ls) := rfl

theorem joinNl_cons2 (a b : List Char) (t : List (List Char)) :
    joinNl (a :: b :: t) = a ++ '\n' :: joinNl (b :: t) := rfl

theorem joinNl_splitNl : ∀ (cs : List Char), joinNl (splitNl cs) = cs := by
  intro cs
  induction cs with
  | nil => rfl
  | cons c cs1 ih =>
    rw [splitNl_cons]
    by_cases h : c = '\n'
    · rw [if_pos h]
      match h2 : splitNl cs1 with
      | [] => exact absurd h2 (splitNl_ne_nil cs1)
      | l :: ls =>
        rw [h2] at ih
        rw [joinNl_cons2]
        simp [ih, h]
    · rw [if_neg h]
      match h2 : splitNl cs1 with
      | [] => exact absurd h2 (splitNl_ne_nil cs1)
      | l :: ls =>
        rw [h2] at ih
        match ls with
        | [] =>
          have : joinNl [c :: l] = c :: l := rfl
          rw [this]
          have h3 : joinNl [l] = l := rfl
          rw [h3] at ih
          rw [ih]
        | l2 :: ls2 =>
          rw [joinNl_cons2]
          rw [joinNl_cons2] at ih
          simp only [List.cons_append]
          rw [ih]

theorem heading_none_of_not (l : List Char) (h : isHeading l = false) :
    headingGroup l = none := by
  unfold isHeading at h
  exact Option.not_isSome_iff_eq_none.mp (by simp [h])

theorem sectionsLoop_cons (line : List Char) (rest : List (List Char))
    (title : List Char) (accRev : List (List Char)) :
    sectionsLoop (line :: rest) title accRev =
      (match headingGroup line with
       | some g => flushSec title accRev ++ sectionsLoop rest (pyStrip g) []
       | none => sectionsLoop rest title (line :: accRev)) := rfl

theorem loop_no_heading : ∀ (lines : List (List Char)) (title : List Char)
    (accRev : List (List Char)), (∀ l ∈ lines, isHeading l = false) →
    sectionsLoop lines title accRev = flushSec title (lines.reverse ++ accRev) := by
  intro lines
  induction lines with
  | nil =>
    intro title accRev h
    simp [sectionsLoop]
  | cons line rest ih =>
    intro title accRev h
    rw [sectionsLoop_cons]
    rw [heading_none_of_not line (h line (by simp))]
    rw [ih title (line :: accRev) (fun l hl => h l (by simp [hl]))]
    simp

theorem loop_all_heading : ∀ (lines : List (List Char)) (title : List Char),
    (∀ l ∈ lines, isHeading l = true) → sectionsLoop lines title [] = [] := by
  intro lines
  induction lines with
  | nil =>
    intro title h
    rfl
  | cons line rest ih =>
    intro title h
    have hs : (headingGroup line).isSome = true := h line (by simp)
    obtain ⟨g, hg⟩ := Option.isSome_iff_exists.mp hs
    rw [sectionsLoop_cons, hg]
    simp only [flushSec, if_pos rfl, List.nil_append]
    exact ih (pyStrip g) (fun l hl => h l (by simp [hl]))

theorem splitNl_append : ∀ (h b : List Char), '\n' ∉ h →
    splitNl (h ++ '\n' :: b) = h :: splitNl b := by
  intro h
  induction h with
  | nil =>
    intro b hn
    simp [splitNl_cons]
  | cons c h1 ih =>
    intro b hn
    have hc : c ≠ '\n' := by
      intro hx
      exact hn (by simp [hx])
    rw [List.cons_append, splitNl_cons, if_neg hc,
        ih b (fun hx => hn (by simp [hx]))]


theorem parse_sections_eq (content : List Char) :
    parse_sections content =
      (if sectionsLoop (splitNl content) "Content".data [] = []
       then [("Content".data, content)]
       else sectionsLoop (splitNl content) "Content".data []) := rfl

theorem parse_formatted_text_eq (text : List Char) :
    parse_formatted_text text =
      (if scanSegsF (convert_checkboxes text).length [] (convert_checkboxes text) = []
       then [(convert_checkboxes text, false, false)]
       else scanSegsF (convert_checkboxes text).length [] (convert_checkboxes text)) := rfl

theorem digits_split (d s : List Char) (hd : ∀ c ∈ d, pyDigit c = true) :
    (d ++ '.' :: s).takeWhile pyDigit = d ∧
    (d ++ '.' :: s).dropWhile pyDigit = '.' :: s := by
  induction d with
  | nil => simp [show pyDigit '.' = false from by decide]
  | cons a d1 ih =>
    have ha : pyDigit a = true := hd a (by simp)
    obtain ⟨ht, hdr⟩ := ih (fun c hc => hd c (by simp [hc]))
    constructor
    · simp [List.takeWhile_cons, ha, ht]
    · simp [List.dropWhile_cons, ha, hdr]

/-- C1 counterexample: the input `" x"` contains no heading-like line, yet
`parse_sections` strips the body, so the single section's body is `"x"`,
not the full input text `" x"` the claim requires. -/
theorem c1_counterexample :
    (∀ l ∈ splitNl " x".data, isHeading l = false) ∧
    parse_sections " x".data = [("Content".data, "x".data)] ∧
    parse_sections " x".data ≠ [("Content".data, " x".data)] := by
  refine ⟨by decide, by decide, by decide⟩

/-- C1 (amended): `parse_sections` always returns a non-empty sequence;
on `""` it returns exactly `[("Content", "")]`; and on any content with
no heading-like line it returns exactly one section titled `"Content"`
whose body is the input text stripped of leading and trailing whitespace
(the strip is what the counterexample forces the claim to add). -/
theorem c1_parse_sections_total :
    (∀ content : List Char, parse_sections content ≠ []) ∧
    parse_sections "".data = [("Content".data, "".data)] ∧
    (∀ content : List Char, (∀ l ∈ splitNl content, isHeading l = false) →
      parse_sections content = [("Content".data, pyStrip content)]) := by
  refine ⟨?_, by decide, ?_⟩
  · intro content
    rw [parse_sections_eq]
    by_cases h : sectionsLoop (splitNl content) "Content".data [] = []
    · simp [h]
    · simp [h]
  · intro content hno
    rw [parse_sections_eq, loop_no_heading (splitNl content) "Content".data [] hno]
    have hne : (splitNl content).reverse ++ ([] : List (List Char)) ≠ [] := by
      simp [splitNl_ne_nil content]
    rw [flushSec, if_neg hne]
    simp [joinNl_splitNl]

/-- C1 witness: a concrete heading-free content, with the hypothesis
discharged by evaluation. -/
theorem c1_witness :
    (∀ l ∈ splitNl "hello world".data, isHeading l = false) ∧
    parse_sections "hello world".data = [("Content".data, pyStrip "hello world".data)] :=
  ⟨by decide, c1_parse_sections_total.2.2 "hello world".data (by decide)⟩

/-- C2: concatenating the segments of `parse_formatted_text`, each with
the emphasis markers its flags record re-inserted, reconstructs the
checkbox-converted line exactly.  Hence the concatenated segment texts
alone (flags ignored) are the input line with checkbox tokens replaced
by glyphs and the matched emphasis markers removed. -/
theorem c2_segments_reconstruct_line (line : List Char) :
    ((parse_formatted_text line).map wrapSeg).flatten = convert_checkboxes line := by
  rw [parse_formatted_text_eq]
  by_cases h : scanSegsF (convert_checkboxes line).length [] (convert_checkboxes line) = []
  · simp [h, wrapSeg, emphDelim]
  · rw [if_neg h]
    have := scan_wrap (convert_checkboxes line).length [] (convert_checkboxes line)
    simpa using this

/-- C3: a string with no emphasis marker (no `*`) and no checkbox token
parses to exactly one plain segment `(s, false, false)`; and on every
input the returned segment list is non-empty. -/
theorem c3_plain_segment :
    (∀ s : List Char, (∀ c ∈ s, c ≠ '*') → hasCheckboxTok s = false →
      parse_formatted_text s = [(s, false, false)]) ∧
    (∀ t : List Char, parse_formatted_text t ≠ []) := by
  constructor
  · intro s hstar htok
    have hcc : convert_checkboxes s = s := cc_noTok s htok
    rw [parse_formatted_text_eq, hcc, scan_no_star s hstar s.length []]
    by_cases h : s = []
    · simp [h]
    · simp [h]
  · intro t
    rw [parse_formatted_text_eq]
    by_cases h : scanSegsF (convert_checkboxes t).length [] (convert_checkboxes t) = []
    · simp [h]
    · simp [h]

/-- C3 witness: the marker-free, token-free string `"hello"`. -/
theorem c3_witness :
    (∀ c ∈ "hello".data, c ≠ '*') ∧ hasCheckboxTok "hello".data = false ∧
    parse_formatted_text "hello".data = [("hello".data, false, false)] :=
  ⟨by decide, by decide, c3_plain_segment.1 "hello".data (by decide) (by decide)⟩

/-- C4 counterexample: `[` + TAB + `]` is not a checkbox token of the
claim (which allows only zero or one interior *space*), yet
`convert_checkboxes` replaces it with the unchecked glyph, because the
regex `\[\s?\]` accepts any whitespace character. -/
theorem c4_counterexample :
    convert_checkboxes "[\t]".data = [uncChar] ∧
    specCheckboxesSpace "[\t]".data = "[\t]".data ∧
    convert_checkboxes "[\t]".data ≠ specCheckboxesSpace "[\t]".data := by
  refine ⟨by decide, by decide, by decide⟩

/-- C4 (amended): `convert_checkboxes` replaces every `[x]` or `[X]`
token by the checked glyph and every `[]` token, or `[` + one whitespace
character (not only a space) + `]`, by the unchecked glyph, leaving all
other text unchanged — it equals the single-pass token scan
`specCheckboxes` on every input; in particular both tokens of the spec's
example become the two distinct glyphs. -/
theorem c4_checkbox_conversion :
    (∀ t : List Char, convert_checkboxes t = specCheckboxes t) ∧
    convert_checkboxes "Tasks: [x] done [ ] pending".data =
      "Tasks: ☑ done ☐ pending".data :=
  ⟨cc_eq_spec, by decide⟩

/-- C5 counterexample: `"# ***T***"` is a heading line, but the regex
capture keeps one leading and one trailing `*` (only up to two stars are
consumed on each side), so the section title is `"*T*"`, not the fully
star-stripped `"T"` the claim requires. -/
theorem c5_counterexample :
    isHeading "# ***T***".data = true ∧
    (∀ l ∈ splitNl "body".data, isHeading l = false) ∧
    parse_sections ("# ***T***".data ++ '\n' :: "body".data) =
      [("*T*".data, "body".data)] ∧
    specTitle "# ***T***".data = "T".data ∧
    ("*T*".data : List Char) ≠ "T".data := by
  refine ⟨by decide, by decide, by decide, by decide, by decide⟩

/-- C5 (amended): for a single heading line followed by body text whose
lines are not heading-like, `parse_sections` returns exactly one section
whose title is the regex-captured heading text stripped of surrounding
whitespace (the capture itself removes the `#` markers and at most two
leading and two trailing `*`, so further `*` characters survive into the
title). -/
theorem c5_single_heading (h b g : List Char) (hg : headingGroup h = some g)
    (hn : '\n' ∉ h) (hb : ∀ l ∈ splitNl b, isHeading l = false) :
    parse_sections (h ++ '\n' :: b) = [(pyStrip g, pyStrip b)] := by
  have hcons : sectionsLoop (h :: splitNl b) "Content".data [] =
      flushSec "Content".data [] ++ sectionsLoop (splitNl b) (pyStrip g) [] := by
    rw [sectionsLoop_cons, hg]
  rw [parse_sections_eq, splitNl_append h b hn, hcons,
      loop_no_heading (splitNl b) (pyStrip g) [] hb]
  simp [flushSec, splitNl_ne_nil b, joinNl_splitNl]

/-- C5 witness: the heading `"# Title"` with body `"body"`. -/
theorem c5_witness :
    headingGroup "# Title".data = some "Title".data ∧
    ('\n' ∉ "# Title".data) ∧
    (∀ l ∈ splitNl "body".data, isHeading l = false) ∧
    parse_sections ("# Title".data ++ '\n' :: "body".data) =
      [(pyStrip "Title".data, pyStrip "body".data)] :=
  ⟨by decide, by decide, by decide,
    c5_single_heading "# Title".data "body".data "Title".data (by decide) (by decide)
      (by decide)⟩

theorem numMatch_decomp (cs : List Char) (h : numMatch cs = true) :
    ∃ d s, cs = d ++ '.' :: s ∧ d ≠ [] ∧ (∀ c ∈ d, pyDigit c = true) := by
  unfold numMatch at h
  rw [Bool.and_eq_true] at h
  obtain ⟨h1, h2⟩ := h
  refine ⟨cs.takeWhile pyDigit, (cs.dropWhile pyDigit).tail, ?_, ?_, ?_⟩
  · have hsplit : cs.takeWhile pyDigit ++ cs.dropWhile pyDigit = cs :=
      List.takeWhile_append_dropWhile pyDigit cs
    match hdw : cs.dropWhile pyDigit with
    | [] => rw [hdw] at h2; exact absurd h2 (by simp [lstarts])
    | a :: t =>
      rw [hdw] at h2
      have ha : a = '.' := by
        have hx : ('.' == a) = true ∧ lstarts [] t = true := by
          simpa [lstarts] using h2
        exact (beq_iff_eq.mp hx.1).symm
      rw [hdw] at hsplit
      rw [ha] at hsplit
      simp only [List.tail_cons]
      exact hsplit.symm
  · intro hx
    rw [hx] at h1
    simp at h1
  · intro c hc
    exact List.mem_takeWhile_imp hc

/-- C6: the body-line classification of `export_to_docx`: an
all-whitespace line is skipped; a stripped line starting with `- ` or
`* ` is a bullet with the two-character marker removed; a stripped line
starting with one or more decimal digits (`\d`, any Unicode Nd digit)
and a period is numbered, with digits, period and following whitespace
removed; any other non-empty stripped line is a plain paragraph kept
verbatim — together with the three concrete examples of the spec. -/
theorem c6_classify_line :
    (∀ raw : List Char, pyStrip raw = [] → classify_line raw = none) ∧
    (∀ (raw s : List Char), pyStrip raw = '-' :: ' ' :: s ∨ pyStrip raw = '*' :: ' ' :: s →
      classify_line raw = some (LineKind.Bullet, s)) ∧
    (∀ (raw d s : List Char), d ≠ [] → (∀ c ∈ d, pyDigit c = true) →
      pyStrip raw = d ++ '.' :: s →
      classify_line raw = some (LineKind.Numbered, s.dropWhile pySpace)) ∧
    (∀ raw : List Char, pyStrip raw ≠ [] →
      (∀ s, pyStrip raw ≠ '-' :: ' ' :: s ∧ pyStrip raw ≠ '*' :: ' ' :: s) →
      (∀ d s, d ≠ [] → (∀ c ∈ d, pyDigit c = true) → pyStrip raw ≠ d ++ '.' :: s) →
      classify_line raw = some (LineKind.Plain, pyStrip raw)) ∧
    classify_line "- Buy milk".data = some (LineKind.Bullet, "Buy milk".data) ∧
    classify_line "2. Go home".data = some (LineKind.Numbered, "Go home".data) ∧
    classify_line "   ".data = none := by
  refine ⟨?_, ?_, ?_, ?_, by decide, by decide, by decide⟩
  · intro raw h
    unfold classify_line
    rw [h]
    simp
  · intro raw s h
    unfold classify_line
    rcases h with h | h <;>
      (rw [h]; simp [lstarts])
  · intro raw d s hdne hdig h
    unfold classify_line
    rw [h]
    have hne : d ++ '.' :: s ≠ [] := by simp
    rw [if_neg hne]
    obtain ⟨d0, d1, hd0⟩ := List.exists_cons_of_ne_nil hdne
    have hd0dig : pyDigit d0 = true := hdig d0 (by simp [hd0])
    have hnotdash : lstarts ['-', ' '] (d ++ '.' :: s) = false := by
      rw [hd0]
      have : d0 ≠ '-' := by
        intro hx
        rw [hx] at hd0dig
        exact absurd hd0dig (by decide)
      simp [lstarts, Ne.symm this]
    have hnotstar : lstarts ['*', ' '] (d ++ '.' :: s) = false := by
      rw [hd0]
      have : d0 ≠ '*' := by
        intro hx
        rw [hx] at hd0dig
        exact absurd hd0dig (by decide)
      simp [lstarts, Ne.symm this]
    rw [hnotdash, hnotstar]
    simp only [Bool.false_eq_true, if_false, Bool.or_self]
    obtain ⟨htw, hdw⟩ := digits_split d s hdig
    have hnum : numMatch (d ++ '.' :: s) = true := by
      unfold numMatch
      rw [htw, hdw]
      simp [lstarts, hdne]
    rw [if_pos hnum]
    unfold dropNumbering
    rw [hdw]
    simp
  · intro raw hne hbul hnum
    unfold classify_line
    rw [if_neg hne]
    have h1 : lstarts ['-', ' '] (pyStrip raw) = false := by
      by_cases h : lstarts ['-', ' '] (pyStrip raw) = true
      · have := lstarts_decomp _ _ h
        exact absurd this ((hbul _).1)
      · exact Bool.eq_false_iff.mpr h
    have h2 : lstarts ['*', ' '] (pyStrip raw) = false := by
      by_cases h : lstarts ['*', ' '] (pyStrip raw) = true
      · have := lstarts_decomp _ _ h
        exact absurd this ((hbul _).2)
      · exact Bool.eq_false_iff.mpr h
    have h3 : numMatch (pyStrip raw) = false := by
      by_cases h : numMatch (pyStrip raw) = true
      · obtain ⟨d, s, hds, hdne, hdig⟩ := numMatch_decomp _ h
        exact absurd hds (hnum d s hdne hdig)
      · exact Bool.eq_false_iff.mpr h
    rw [h1, h2]
    simp only [Bool.false_eq_true, if_false, Bool.or_self]
    rw [h3]
    simp

/-- C6 witness: the all-whitespace line is skipped and the bullet
example classifies with the marker removed. -/
theorem c6_witness :
    pyStrip "   ".data = [] ∧ classify_line "   ".data = none ∧
    pyStrip "- Buy milk".data = '-' :: ' ' :: "Buy milk".data ∧
    classify_line "- Buy milk".data = some (LineKind.Bullet, "Buy milk".data) :=
  ⟨by decide, c6_classify_line.1 "   ".data (by decide), by decide,
    c6_classify_line.2.1 "- Buy milk".data "Buy milk".data (Or.inl (by decide))⟩

theorem sanitize_no_forbidden (s : List Char) :
    ∀ c ∈ sanitize_filename s, isForbidden c = false := by
  intro c hc
  unfold sanitize_filename at hc
  have h1 : c ∈ s.filter (fun c => !isForbidden c) := List.mem_of_mem_take hc
  have h2 := (List.mem_filter.mp h1).2
  simpa using h2

/-- C7: every exporter's filename is
artifactLabel + `_` + versionKey + `_` + sanitizedObjective + extension,
where the learning objective is truncated to 30 characters before
sanitization, sanitization deletes the nine forbidden characters and
truncates to at most 50 characters; for the five version keys the whole
filename contains no forbidden character. -/
theorem c7_filenames :
    ∀ (lo : Option (List Char)) (vk : List Char), vk ∈ versionKeys →
      (∀ c ∈ docx_filename lo vk, isForbidden c = false) ∧
      (∀ c ∈ pdf_filename lo vk, isForbidden c = false) ∧
      (∀ c ∈ pptx_filename lo vk, isForbidden c = false) ∧
      (∀ c ∈ xlsx_filename lo, isForbidden c = false) ∧
      (objective_short lo).length ≤ 50 ∧
      docx_filename lo vk =
        "UDL_".data ++ vk ++ '_' ::
          sanitize_filename ((lo.getD "materials".data).take 30) ++ ".docx".data := by
  intro lo vk hvk
  have hsan : ∀ c ∈ objective_short lo, isForbidden c = false :=
    fun c hc => sanitize_no_forbidden _ c hc
  have hvkf : ∀ c ∈ vk, isForbidden c = false := by
    fin_cases hvk <;> decide
  have happ : ∀ (a b : List Char), (∀ c ∈ a, isForbidden c = false) →
      (∀ c ∈ b, isForbidden c = false) → ∀ c ∈ a ++ b, isForbidden c = false := by
    intro a b ha hb c hc
    rcases List.mem_append.mp hc with h | h
    · exact ha c h
    · exact hb c h
  have hobj : ∀ c ∈ '_' :: objective_short lo, isForbidden c = false := by
    intro c hc
    rcases List.mem_cons.mp hc with h | h
    · rw [h]; decide
    · exact hsan c h
  refine ⟨?_, ?_, ?_, ?_, ?_, rfl⟩
  · exact happ _ _ (happ _ _ (happ _ _ (by decide) hvkf) hobj) (by decide)
  · exact happ _ _ (happ _ _ (happ _ _ (by decide) hvkf) hobj) (by decide)
  · exact happ _ _ (happ _ _ (happ _ _ (by decide) hvkf) hobj) (by decide)
  · exact happ _ _ (happ _ _ (by decide) hsan) (by decide)
  · unfold objective_short sanitize_filename
    exact List.length_take_le 50 _

/-- C7 witness: the spec's filename scenario, with the version-key
hypothesis discharged by evaluation. -/
theorem c7_witness :
    "on_level".data ∈ versionKeys ∧
    (∀ c ∈ docx_filename
        (some "Identify main idea: a very long objective text exceeding thirty chars".data)
        "on_level".data, isForbidden c = false) :=
  ⟨by decide,
    (c7_filenames
      (some "Identify main idea: a very long objective text exceeding thirty chars".data)
      "on_level".data (by decide)).1⟩

/-- C8 counterexample: a version entry whose content field is present
but empty (and whose error is absent) resolves to the empty string, not
to the `"No content generated"` placeholder — only a missing content
field triggers the placeholder. -/
theorem c8_counterexample :
    resolve_content (fun _ => some ⟨some [], none⟩) "on_level".data = [] ∧
    ([] : List Char) ≠ "No content generated".data :=
  ⟨rfl, by decide⟩

/-- C8 (amended): the exporter substitutes the placeholder
`"No content generated"` exactly when the version is absent from the
materials mapping or its entry has no content field; a present-but-empty
content string is rendered as it is. -/
theorem c8_missing_content_placeholder :
    ∀ (materials : List Char → Option VersionData) (vk : List Char),
      (materials vk = none ∨ ∃ vd, materials vk = some vd ∧ vd.content = none) →
      resolve_content materials vk = "No content generated".data := by
  intro materials vk h
  unfold resolve_content
  rcases h with h | ⟨vd, h1, h2⟩
  · rw [h]
  · rw [h1]
    show vd.content.getD "No content generated".data = "No content generated".data
    rw [h2]
    rfl

/-- C8 witness: a materials mapping with the version absent. -/
theorem c8_witness :
    ((fun _ => none : List Char → Option VersionData) "on_level".data = none) ∧
    resolve_content (fun _ => none) "on_level".data = "No content generated".data :=
  ⟨rfl, c8_missing_content_placeholder (fun _ => none) "on_level".data (Or.inl rfl)⟩

/-- C9: `convert_checkboxes` is idempotent — the substituted glyphs
cannot take part in any further checkbox token, so a second application
changes nothing. -/
theorem c9_convert_checkboxes_idempotent (t : List Char) :
    convert_checkboxes (convert_checkboxes t) = convert_checkboxes t := by
  rw [cc_eq_spec, cc_eq_spec, spec_idem]

/-- C10 counterexample: in `"**Content**"` every line is heading-like and
the heading's stripped title is `"Content"`, which does appear as the
(default) section title, contradicting the claim's "none of the heading
titles appears as a section title". -/
theorem c10_counterexample :
    "**Content**".data ≠ [] ∧
    (∀ l ∈ splitNl "**Content**".data, isHeading l = true) ∧
    headingGroup "**Content**".data = some "Content".data ∧
    List.map Prod.fst (parse_sections "**Content**".data) = ["Content".data] := by
  refine ⟨by decide, by decide, by decide, by decide⟩

/-- C10 (amended): when every line of a non-empty content is
heading-like, no body is ever accumulated, so `parse_sections` falls
back to exactly `[("Content", content)]` with the raw text (markers
included) as body; the only section title is the default `"Content"`,
so a heading title appears as a section title only if it equals
`"Content"` itself. -/
theorem c10_all_heading_fallback :
    ∀ content : List Char, content ≠ [] →
      (∀ l ∈ splitNl content, isHeading l = true) →
      parse_sections content = [("Content".data, content)] ∧
      (∀ t ∈ List.map Prod.fst (parse_sections content), t = "Content".data) := by
  intro content hne hall
  have h1 := loop_all_heading (splitNl content) "Content".data hall
  have hps : parse_sections content = [("Content".data, content)] := by
    rw [parse_sections_eq, h1]
    simp
  exact ⟨hps, by rw [hps]; simp⟩

/-- C10 witness: a content consisting of two heading lines. -/
theorem c10_witness :
    ("# A".data ++ '\n' :: "# B".data ≠ []) ∧
    (∀ l ∈ splitNl ("# A".data ++ '\n' :: "# B".data), isHeading l = true) ∧
    parse_sections ("# A".data ++ '\n' :: "# B".data) =
      [("Content".data, "# A".data ++ '\n' :: "# B".data)] :=
  ⟨by decide, by decide,
    (c10_all_heading_fallback ("# A".data ++ '\n' :: "# B".data) (by decide) (by decide)).1⟩
